import Mathlib

/-!
Verification of the request-ingestion layer of the elvish daemon
(`src/server/req.c`): JSON command decoding, strict schema checking,
argument/environment materialisation, descriptor reception over the
companion channel, and the heap lifecycle of request objects.

The C code is shallowly embedded.  Heap allocation and release are made
explicit: every `malloc`/`strdup`/`alloc` returns a fresh allocation id
and every `free` erases one, so "no leak" is the statement that the
multiset of live allocation ids is restored.  The companion descriptor
channel (`FdTubeFd`) is a list of incoming messages, the control stream
(`TubeFile`) is an end-of-file flag plus a list of parse outcomes
delivered by the external jansson parser.
-/

/-- JSON values as produced by the external jansson parser (the parser
itself is an external collaborator; only its output is modelled). -/
inductive Json where
  | null
  | bool (b : Bool)
  | num (n : Int)
  | str (s : String)
  | arr (elts : List Json)
  | obj (fields : List (String × Json))

/-- Messages arriving on the companion descriptor channel: either a
transport-level receive failure, or a message whose control payload has
the given length and carries the given descriptor number. -/
inductive FdMsg where
  | transportError
  | msg (controllen : Nat) (fd : Nat)
deriving DecidableEq

/-- Outcomes the external jansson parser can deliver for one
`json_loadf` call on the control stream. -/
inductive ParseEvent where
  | doc (j : Json)
  | parseFail (line : Nat) (text : String)

/-- World state threaded through the embedded code: allocation counter,
multiset of live heap allocation ids, multiset of open file descriptors
of the process, the stderr log, the companion descriptor channel, and
the control stream (feof flag plus pending parse outcomes). -/
structure St where
  next : Nat
  live : Multiset Nat
  fds : Multiset Int
  log : List String
  fdTube : List FdMsg
  tubeEof : Bool
  tubeDocs : List ParseEvent

/-- Allocate a fresh heap cell (mirrors `malloc`/`calloc`): returns the
fresh id and records it live. -/
def St.alloc (s : St) : Nat × St :=
  (s.next, { s with next := s.next + 1, live := s.next ::ₘ s.live })

/-- Release one heap cell (mirrors `free`). -/
def St.free (s : St) (a : Nat) : St :=
  { s with live := s.live.erase a }

/-- Append one diagnostic line (mirrors `fprintf(stderr, ...)`). -/
def St.logMsg (s : St) (m : String) : St :=
  { s with log := s.log ++ [m] }

/-- An owned C string: its allocation id and its contents. -/
structure OwnedStr where
  id : Nat
  val : String
deriving DecidableEq

/-- Mirrors `strdup`: a fresh allocation holding a copy of the text. -/
def strdup (v : String) (s : St) : OwnedStr × St :=
  let (a, s1) := s.alloc
  (⟨a, v⟩, s1)

/-- A `char **` buffer: its own allocation id and its cells (a cell is
`none` where the C array holds a null pointer). -/
structure StrBuf where
  id : Nat
  cells : List (Option OwnedStr)
deriving DecidableEq

/-- Modelled from the spec: the project allocator `alloc(t, n)` lives in
`common.h`, which is not under `src/`; the source relies on the buffer
starting out null-filled (`freeStrings` stops at the first null even
when `loadArgv` fails before filling every slot), so it is modelled as a
zero-initialising allocation of `n` cells. -/
def allocBuf (n : Nat) (s : St) : StrBuf × St :=
  let (a, s1) := s.alloc
  (⟨a, List.replicate n none⟩, s1)

/-- Mirrors the loop body of `freeStrings`: free each string until the
first null cell. -/
def freeCells : List (Option OwnedStr) → St → St
  | [], s => s
  | none :: _, s => s
  | some o :: rest, s => freeCells rest (s.free o.id)

/-- Mirrors `freeStrings`: free every string up to the null sentinel,
then the backing array itself. -/
def freeStrings (buf : StrBuf) (s : St) : St :=
  (freeCells buf.cells s).free buf.id

/-- A decoded command request (`ReqCmd`), fields as in `req.h` usage:
allocation id of the struct, owned path, argv and envp buffers, the two
redirection flags, and the two descriptor fields. -/
structure ReqCmd where
  id : Nat
  path : Option OwnedStr
  argv : Option StrBuf
  envp : Option StrBuf
  redirInput : Bool
  redirOutput : Bool
  input : Int
  output : Int
deriving DecidableEq

/-- An exit request (`ReqExit`): only the struct allocation. -/
structure ReqExit where
  id : Nat
deriving DecidableEq

/-- The tagged union `Req`, as a sum over the two variants. -/
inductive Req where
  | cmd (c : ReqCmd)
  | exit (e : ReqExit)
deriving DecidableEq

/-- Mirrors `freeReqCmd`: free the path, the argv strings and buffer,
the envp strings and buffer, then the struct; the descriptor fields are
not touched. -/
def freeReqCmd (c : ReqCmd) (s : St) : St :=
  let s1 := match c.path with
    | some p => s.free p.id
    | none => s
  let s2 := match c.argv with
    | some b => freeStrings b s1
    | none => s1
  let s3 := match c.envp with
    | some b => freeStrings b s2
    | none => s2
  s3.free c.id

/-- Mirrors `freeReqExit`. -/
def freeReqExit (e : ReqExit) (s : St) : St :=
  s.free e.id

/-- Mirrors `FreeReq`: dispatch on the variant tag. -/
def FreeReq (r : Req) (s : St) : St :=
  match r with
  | Req.cmd c => freeReqCmd c s
  | Req.exit e => freeReqExit e s

/-- Mirrors `json_is_string`. -/
def isStr : Json → Bool
  | Json.str _ => true
  | _ => false

/-- Mirrors the loop of `loadArgv`: walk the array elements, duplicating
each string into slot `i`; on the first non-string element print the
diagnostic, free what was built, and fail. -/
def loadArgvLoop : List Json → Nat → StrBuf → St → Option StrBuf × St
  | [], _, buf, s => (some buf, s)
  | a :: rest, i, buf, s =>
    match a with
    | Json.str v =>
      let (o, s1) := strdup v s
      loadArgvLoop rest (i + 1) ⟨buf.id, buf.cells.set i (some o)⟩ s1
    | _ => (none, freeStrings buf (s.logMsg "argv element not string"))

/-- Mirrors `loadArgv`: require an array, allocate `n + 1` null cells,
fill them in order. -/
def loadArgv (root : Json) (s : St) : Option StrBuf × St :=
  match root with
  | Json.arr elts =>
    let (buf, s1) := allocBuf (elts.length + 1) s
    loadArgvLoop elts 0 buf s1
  | _ => (none, s.logMsg "argv not array")

/-- Mirrors the `json_object_foreach` loop of `loadEnvp`: each pair with
a string value becomes one freshly allocated `key=value` string; a
non-string value prints the diagnostic, frees what was built, fails. -/
def loadEnvpLoop : List (String × Json) → Nat → StrBuf → St → Option StrBuf × St
  | [], _, buf, s => (some buf, s)
  | (k, v) :: rest, i, buf, s =>
    match v with
    | Json.str vs =>
      let (o, s1) := strdup (k ++ "=" ++ vs) s
      loadEnvpLoop rest (i + 1) ⟨buf.id, buf.cells.set i (some o)⟩ s1
    | _ => (none, freeStrings buf (s.logMsg "envp value not object"))

/-- Mirrors `loadEnvp`: require an object, allocate `n + 1` null cells,
fill one `key=value` string per pair in enumeration order. -/
def loadEnvp (root : Json) (s : St) : Option StrBuf × St :=
  match root with
  | Json.obj fields =>
    let (buf, s1) := allocBuf (fields.length + 1) s
    loadEnvpLoop fields 0 buf s1
  | _ => (none, s.logMsg "envp not object")

/-- Mirrors `newReqCmd`: `alloc` zero-fills, so pointers start null,
flags false and descriptors zero. -/
def newReqCmd (s : St) : ReqCmd × St :=
  let (a, s1) := s.alloc
  (⟨a, none, none, none, false, false, 0, 0⟩, s1)

/-- CMSG_LEN(sizeof(int)) of the target platform; the concrete value is
irrelevant, only comparisons of message control lengths against it. -/
def CONTROLLEN : Nat := 20

/-- Mirrors `recvFd`: allocate the cmsg buffer, perform one blocking
receive on the companion channel, check the control length, free the
cmsg buffer and return the descriptor or `-1`.  Modelled from the spec:
`Check_1` lives in `common.h`, which is not under `src/`; per the spec a
transport-level receive failure makes the call fail and yield no usable
descriptor, so a failed `recvmsg` (and an empty channel) produces `-1`.
A successfully extracted descriptor becomes an open descriptor of the
process. -/
def recvFd (s : St) : Int × St :=
  let (cm, s1) := s.alloc
  let s2 := s1.logMsg "Waiting for a fd"
  match s2.fdTube with
  | [] => (-1, (s2.logMsg "recvmsg").free cm)
  | FdMsg.transportError :: rest =>
    (-1, (({ s2 with fdTube := rest }).logMsg "recvmsg").free cm)
  | FdMsg.msg len fd :: rest =>
    let s3 := ({ s2 with fdTube := rest }).logMsg "Got a fd"
    if len < CONTROLLEN then
      (-1, (s3.logMsg "short control message").free cm)
    else
      ((fd : Int), ({ s3 with fds := (fd : Int) ::ₘ s3.fds }).free cm)

/-- Mirrors the second conditional of `recvFds` (output transfer). -/
def recvFdsOut (c : ReqCmd) (s : St) : Int × ReqCmd × St :=
  if c.redirOutput then
    let (fd, s1) := recvFd s
    let c1 := { c with output := fd }
    if fd < 0 then (-1, c1, s1) else (0, c1, s1)
  else (0, c, s)

/-- Mirrors `recvFds`: input transfer first, aborting before the output
transfer if it fails. -/
def recvFds (c : ReqCmd) (s : St) : Int × ReqCmd × St :=
  if c.redirInput then
    let (fd, s1) := recvFd s
    let c1 := { c with input := fd }
    if fd < 0 then (-1, c1, s1) else recvFdsOut c1 s1
  else recvFdsOut c s

/-- Mirrors `json_object_get` as used through `json_unpack_ex`: first
binding of the key in the object. -/
def jsonLookup (k : String) : List (String × Json) → Option Json
  | [] => none
  | (k1, v) :: rest => if k1 = k then some v else jsonLookup k rest

/-- The five keys of the `Cmd` schema, in declaration order. -/
def cmdKeys : List String := ["Path", "Args", "Env", "RedirInput", "RedirOutput"]

/-- Mirrors `json_unpack_ex(root, 0, JSON_STRICT, "{ss so so sb sb}", ...)`:
the document must be an object; `Path` must be a string, `Args` and
`Env` are extracted untyped, the two redirection flags must be booleans;
`JSON_STRICT` additionally rejects any key outside the format. -/
def unpackCmd (root : Json) : Option (String × Json × Json × Bool × Bool) :=
  match root with
  | Json.obj fields =>
    match jsonLookup "Path" fields, jsonLookup "Args" fields,
          jsonLookup "Env" fields, jsonLookup "RedirInput" fields,
          jsonLookup "RedirOutput" fields,
          fields.all (fun kv => cmdKeys.contains kv.1) with
    | some (Json.str p), some a, some e, some (Json.bool b1),
        some (Json.bool b2), true => some (p, a, e, b1, b2)
    | _, _, _, _, _, _ => none
  | _ => none

/-- Mirrors `loadReqCmd`: allocate the struct, unpack the strict schema,
build argv, build envp, receive the requested descriptors; on success
duplicate the path, otherwise free everything built for this command and
return null. -/
def loadReqCmd (root : Json) (s : St) : Option ReqCmd × St :=
  let (cmd, s1) := newReqCmd s
  match unpackCmd root with
  | none => (none, freeReqCmd cmd s1)
  | some (path, args, env, ri, ro) =>
    let cmd1 := { cmd with redirInput := ri, redirOutput := ro }
    match loadArgv args s1 with
    | (none, s2) => (none, freeReqCmd cmd1 s2)
    | (some argvB, s2) =>
      let cmd2 := { cmd1 with argv := some argvB }
      match loadEnvp env s2 with
      | (none, s3) => (none, freeReqCmd cmd2 s3)
      | (some envpB, s3) =>
        let cmd3 := { cmd2 with envp := some envpB }
        match recvFds cmd3 s3 with
        | (st, cmd4, s4) =>
          if st = 0 then
            let (p, s5) := strdup path s4
            (some { cmd4 with path := some p }, s5)
          else (none, freeReqCmd cmd4 s4)

/-- Mirrors `newReqExit`. -/
def newReqExit (s : St) : ReqExit × St :=
  let (a, s1) := s.alloc
  (⟨a⟩, s1)

/-- Mirrors `loadReq`: the document must be an object; the
`json_object_foreach` loop returns on its first iteration, so only the
first enumerated key is inspected; an empty object falls through the
loop. -/
def loadReq (root : Json) (s : St) : Option Req × St :=
  match root with
  | Json.obj [] => (none, s.logMsg "empty req")
  | Json.obj ((k, v) :: _) =>
    if k = "Cmd" then
      match loadReqCmd v s with
      | (some c, s1) => (some (Req.cmd c), s1)
      | (none, s1) => (none, s1)
    else (none, s.logMsg ("bad req type " ++ k))
  | _ => (none, s.logMsg "req not object")

/-- Mirrors `json_loadf(TubeFile, JSON_DISABLE_EOF_CHECK, &error)`: the
external parser consumes the next outcome of the control stream; running
out of data sets the feof flag and reports a parse failure. -/
def json_loadf (s : St) : Except (Nat × String) Json × St :=
  match s.tubeDocs with
  | [] => (Except.error (1, "premature end of input"), { s with tubeEof := true })
  | ParseEvent.doc j :: rest => (Except.ok j, { s with tubeDocs := rest })
  | ParseEvent.parseFail l t :: rest =>
    (Except.error (l, t), { s with tubeDocs := rest })

/-- Mirrors `RecvReq`: if the control stream already reports end of
file, produce an `Exit` request before any parse attempt; otherwise
parse one document and dispatch it, reporting a diagnostic through the
`err` out-parameter on failure. -/
def RecvReq (s : St) : Option Req × Option String × St :=
  if s.tubeEof then
    let (e, s1) := newReqExit s
    (some (Req.exit e), none, s1)
  else
    match json_loadf s with
    | (Except.error le, s1) =>
      (none, some ("json: error on line " ++ toString le.1 ++ ": " ++ le.2), s1)
    | (Except.ok root, s1) =>
      match loadReq root s1 with
      | (some r, s2) => (some r, none, s2)
      | (none, s2) => (none, some "json: command doesn't conform to schema", s2)

/-- State reached after one `RecvReq` call. -/
def RecvReqSt (s : St) : St :=
  (RecvReq s).2.2

/-- State reached after `n` consecutive `RecvReq` calls. -/
def recvLoop : Nat → St → St
  | 0, s => s
  | n + 1, s => RecvReqSt (recvLoop n s)

/-- An initial world state with nothing allocated, used by concrete
evaluations. -/
def st0 : St :=
  ⟨0, 0, 0, [], [], false, []⟩

/-- A JSON value that is an array of strings. -/
def isStrArr : Json → Bool
  | Json.arr elts => elts.all isStr
  | _ => false

/-- A JSON value that is an object all of whose values are strings. -/
def isStrObj : Json → Bool
  | Json.obj fields => fields.all (fun kv => isStr kv.2)
  | _ => false

/-- Follows the spec's words (sections 4.3, 6 and 8): the object carries
exactly the five schema fields and no others, with `Path` a string,
`Args` an array of strings, `Env` a key/value mapping with string
values, and the two redirection flags booleans. -/
def specValidCmdFields (fields : List (String × Json)) : Bool :=
  fields.all (fun kv => cmdKeys.contains kv.1) &&
  cmdKeys.all (fun k => (fields.map Prod.fst).contains k) &&
  (match jsonLookup "Path" fields with
    | some (Json.str _) => true
    | _ => false) &&
  (match jsonLookup "Args" fields with
    | some j => isStrArr j
    | none => false) &&
  (match jsonLookup "Env" fields with
    | some j => isStrObj j
    | none => false) &&
  (match jsonLookup "RedirInput" fields with
    | some (Json.bool _) => true
    | _ => false) &&
  (match jsonLookup "RedirOutput" fields with
    | some (Json.bool _) => true
    | _ => false)

/-- Follows the spec's words: a document conforming to the strict `Cmd`
schema. -/
def specValidCmdDoc : Json → Bool
  | Json.obj fields => specValidCmdFields fields
  | _ => false

/-- A message on the companion channel whose descriptor transfer fails:
either a transport-level failure or a control payload shorter than one
descriptor needs. -/
def fdMsgFails : FdMsg → Bool
  | FdMsg.transportError => true
  | FdMsg.msg len _ => len < CONTROLLEN

/-- The owned strings of a successfully built buffer, in order. -/
def bufStrings (buf : StrBuf) : List String :=
  buf.cells.filterMap (fun c => c.map OwnedStr.val)

/-! ### Heap bookkeeping lemmas -/

theorem freeCells_eq (os : List OwnedStr) (rest : List (Option OwnedStr)) (s : St) :
    freeCells (os.map some ++ none :: rest) s
      = { s with live := s.live - (os.map OwnedStr.id : Multiset Nat) } := by
  induction os generalizing s with
  | nil => simp [freeCells]
  | cons o os ih =>
    simp only [List.map_cons, List.cons_append, freeCells, List.append_eq]
    rw [ih]
    simp only [St.free]
    congr 1
    rw [← Multiset.cons_coe, Multiset.sub_cons]

theorem freeStrings_eq (b : Nat) (os : List OwnedStr)
    (rest : List (Option OwnedStr)) (s : St) :
    freeStrings ⟨b, os.map some ++ none :: rest⟩ s
      = { s with live := s.live - (b ::ₘ (os.map OwnedStr.id : Multiset Nat)) } := by
  simp only [freeStrings, freeCells_eq, St.free]
  congr 1
  rw [← Multiset.sub_singleton, tsub_tsub, add_comm, Multiset.singleton_add]

theorem set_at_append (l1 : List (Option OwnedStr)) (x y : Option OwnedStr)
    (l2 : List (Option OwnedStr)) :
    (l1 ++ x :: l2).set l1.length y = l1 ++ y :: l2 := by
  induction l1 with
  | nil => rfl
  | cons a l ih => simp [List.set, ih]

theorem sub_cons_exchange (L A : Multiset Nat) (x b : Nat) :
    (x ::ₘ L) - (b ::ₘ (A + {x})) = L - (b ::ₘ A) := by
  have h1 : b ::ₘ (A + {x}) = x ::ₘ (b ::ₘ A) := by
    rw [add_comm, Multiset.singleton_add, Multiset.cons_swap]
  rw [h1, Multiset.sub_cons, Multiset.erase_cons_head]

/-! ### Argument vector builder lemmas -/


attribute [ext] St

theorem loadArgvLoop_ok (vals : List String) :
    ∀ (os : List OwnedStr) (b : Nat) (s : St),
    ∃ os2 : List OwnedStr,
      loadArgvLoop (vals.map Json.str) os.length
          ⟨b, os.map some ++ List.replicate (vals.length + 1) none⟩ s
        = (some ⟨b, (os ++ os2).map some ++ [none]⟩,
           { s with next := s.next + vals.length,
                    live := (os2.map OwnedStr.id : Multiset Nat) + s.live })
      ∧ os2.map OwnedStr.val = vals := by
  induction vals with
  | nil =>
    intro os b s
    refine ⟨[], ?_, rfl⟩
    simp [loadArgvLoop]
  | cons v vs ih =>
    intro os b s
    obtain ⟨os2, heq, hval⟩ := ih (os ++ [(⟨s.next, v⟩ : OwnedStr)]) b
      { s with next := s.next + 1, live := s.next ::ₘ s.live }
    refine ⟨(⟨s.next, v⟩ : OwnedStr) :: os2, ?_, by simpa using hval⟩
    have hlen : os.length + 1 = (os ++ [(⟨s.next, v⟩ : OwnedStr)]).length := by simp
    rw [← hlen] at heq
    have hcells : (os.map some ++ List.replicate (vs.length + 1 + 1) none).set
        os.length (some (⟨s.next, v⟩ : OwnedStr))
        = (os ++ [(⟨s.next, v⟩ : OwnedStr)]).map some
            ++ List.replicate (vs.length + 1) none := by
      rw [List.replicate_succ,
        show os.length = (os.map some).length from (List.length_map _ _).symm,
        set_at_append]
      simp
    calc loadArgvLoop ((v :: vs).map Json.str) os.length
          ⟨b, os.map some ++ List.replicate (vs.length + 1 + 1) none⟩ s
        = loadArgvLoop (vs.map Json.str) (os.length + 1)
            ⟨b, (os ++ [(⟨s.next, v⟩ : OwnedStr)]).map some
                  ++ List.replicate (vs.length + 1) none⟩
            { s with next := s.next + 1, live := s.next ::ₘ s.live } := by
          simp [loadArgvLoop, strdup, St.alloc, hcells]
      _ = _ := by
          rw [heq]
          refine Prod.ext ?_ ?_
          · simp [List.append_assoc]
          · refine St.ext ?_ ?_ ?_ ?_ ?_ ?_ ?_
            · simp only [List.length_cons]
              omega
            · simp only [List.map_cons, ← Multiset.cons_coe, Multiset.cons_add,
                Multiset.add_cons]
            · rfl
            · rfl
            · rfl
            · rfl
            · rfl

theorem loadArgv_ok (vals : List String) (s : St) :
    ∃ os : List OwnedStr,
      loadArgv (Json.arr (vals.map Json.str)) s
        = (some ⟨s.next, os.map some ++ [none]⟩,
           { s with next := s.next + 1 + vals.length,
                    live := (os.map OwnedStr.id : Multiset Nat) + (s.next ::ₘ s.live) })
      ∧ os.map OwnedStr.val = vals := by
  obtain ⟨os2, heq, hval⟩ := loadArgvLoop_ok vals []
    s.next { s with next := s.next + 1, live := s.next ::ₘ s.live }
  refine ⟨os2, ?_, hval⟩
  have h0 : loadArgv (Json.arr (vals.map Json.str)) s
      = loadArgvLoop (vals.map Json.str) 0
        ⟨s.next, List.replicate ((vals.map Json.str).length + 1) none⟩
        { s with next := s.next + 1, live := s.next ::ₘ s.live } := by
    simp [loadArgv, allocBuf, St.alloc]
  rw [h0]
  simpa using heq

theorem loadArgvLoop_fail_head (a : Json) (rest : List Json)
    (ha : isStr a = false) (os : List OwnedStr) (b : Nat) (s : St) :
    loadArgvLoop (a :: rest) os.length
        ⟨b, os.map some ++ List.replicate (rest.length + 1 + 1) none⟩ s
      = (none, { s with
          live := s.live - (b ::ₘ (os.map OwnedStr.id : Multiset Nat)),
          log := s.log ++ ["argv element not string"] }) := by
  have hc : (os.map some ++ List.replicate (rest.length + 1 + 1) (none : Option OwnedStr))
      = os.map some ++ none :: List.replicate (rest.length + 1) none := by
    rw [List.replicate_succ]
  cases a with
  | str v => simp [isStr] at ha
  | null =>
    simp only [loadArgvLoop]
    rw [hc, freeStrings_eq]
    rfl
  | bool bv =>
    simp only [loadArgvLoop]
    rw [hc, freeStrings_eq]
    rfl
  | num nv =>
    simp only [loadArgvLoop]
    rw [hc, freeStrings_eq]
    rfl
  | arr l =>
    simp only [loadArgvLoop]
    rw [hc, freeStrings_eq]
    rfl
  | obj fl =>
    simp only [loadArgvLoop]
    rw [hc, freeStrings_eq]
    rfl

theorem loadArgvLoop_fail (elts : List Json) (h : elts.all isStr = false) :
    ∀ (os : List OwnedStr) (b : Nat) (s : St),
    ∃ s2 : St,
      loadArgvLoop elts os.length
          ⟨b, os.map some ++ List.replicate (elts.length + 1) none⟩ s
        = (none, s2)
      ∧ s2.live = s.live - (b ::ₘ (os.map OwnedStr.id : Multiset Nat))
      ∧ s2.fds = s.fds ∧ s2.fdTube = s.fdTube ∧ s2.tubeEof = s.tubeEof
      ∧ s2.tubeDocs = s.tubeDocs
      ∧ s2.log = s.log ++ ["argv element not string"] := by
  induction elts with
  | nil => simp at h
  | cons a rest ih =>
    intro os b s
    cases ha : isStr a with
    | false =>
      refine ⟨_, loadArgvLoop_fail_head a rest ha os b s, ?_⟩
      exact ⟨rfl, rfl, rfl, rfl, rfl, rfl⟩
    | true =>
      obtain ⟨v, rfl⟩ : ∃ v, a = Json.str v := by
        cases a <;> simp [isStr] at ha ⊢
      have hrest : rest.all isStr = false := by
        simp only [List.all_cons, isStr, Bool.true_and] at h
        exact h
      obtain ⟨s2, heq, hlive, hfds, htube, heof, hdocs, hlog⟩ :=
        ih hrest (os ++ [(⟨s.next, v⟩ : OwnedStr)]) b
          { s with next := s.next + 1, live := s.next ::ₘ s.live }
      have hlen : os.length + 1 = (os ++ [(⟨s.next, v⟩ : OwnedStr)]).length := by simp
      rw [← hlen] at heq
      have hcells : (os.map some ++ List.replicate (rest.length + 1 + 1) none).set
          os.length (some (⟨s.next, v⟩ : OwnedStr))
          = (os ++ [(⟨s.next, v⟩ : OwnedStr)]).map some
              ++ List.replicate (rest.length + 1) none := by
        rw [List.replicate_succ,
          show os.length = (os.map some).length from (List.length_map _ _).symm,
          set_at_append]
        simp
      have hstep : loadArgvLoop (Json.str v :: rest) os.length
          ⟨b, os.map some ++ List.replicate (rest.length + 1 + 1) none⟩ s
          = loadArgvLoop rest (os.length + 1)
            ⟨b, (os ++ [(⟨s.next, v⟩ : OwnedStr)]).map some
                  ++ List.replicate (rest.length + 1) none⟩
            { s with next := s.next + 1, live := s.next ::ₘ s.live } := by
        simp [loadArgvLoop, strdup, St.alloc, hcells]
      refine ⟨s2, ?_, ?_, hfds, htube, heof, hdocs, hlog⟩
      · rw [List.length_cons, hstep]
        exact heq
      · rw [hlive]
        simp only [List.map_append, List.map_cons, List.map_nil]
        rw [show ((os.map OwnedStr.id ++ [s.next] : List Nat) : Multiset Nat)
            = (os.map OwnedStr.id : Multiset Nat) + {s.next} by
          rw [← Multiset.coe_singleton, ← Multiset.coe_add]]
        exact sub_cons_exchange s.live _ s.next b

theorem loadArgv_arr_fail (elts : List Json) (s : St) (h : elts.all isStr = false) :
    ∃ s2 : St, loadArgv (Json.arr elts) s = (none, s2)
      ∧ s2.live = s.live ∧ s2.fds = s.fds ∧ s2.fdTube = s.fdTube
      ∧ s2.tubeEof = s.tubeEof ∧ s2.tubeDocs = s.tubeDocs
      ∧ s2.log = s.log ++ ["argv element not string"] := by
  obtain ⟨s2, heq, hlive, hfds, htube, heof, hdocs, hlog⟩ :=
    loadArgvLoop_fail elts h [] s.next
      { s with next := s.next + 1, live := s.next ::ₘ s.live }
  refine ⟨s2, ?_, ?_, hfds, htube, heof, hdocs, hlog⟩
  · have h0 : loadArgv (Json.arr elts) s
        = loadArgvLoop elts 0 ⟨s.next, List.replicate (elts.length + 1) none⟩
          { s with next := s.next + 1, live := s.next ::ₘ s.live } := by
      simp [loadArgv, allocBuf, St.alloc]
    rw [h0]
    simpa using heq
  · rw [hlive]
    simp

theorem loadArgvLoop_isSome (elts : List Json) :
    ∀ (i : Nat) (buf : StrBuf) (s : St),
    ((loadArgvLoop elts i buf s).1).isSome = elts.all isStr := by
  induction elts with
  | nil =>
    intro i buf s
    simp [loadArgvLoop]
  | cons a rest ih =>
    intro i buf s
    cases a <;> simp [loadArgvLoop, isStr, strdup, St.alloc, ih]

theorem loadArgv_isSome (j : Json) (s : St) :
    ((loadArgv j s).1).isSome = isStrArr j := by
  cases j <;> simp [loadArgv, isStrArr, allocBuf, St.alloc, loadArgvLoop_isSome]

theorem all_isStr_exists (elts : List Json) (h : elts.all isStr = true) :
    ∃ vals : List String, elts = vals.map Json.str := by
  induction elts with
  | nil => exact ⟨[], rfl⟩
  | cons a rest ih =>
    simp only [List.all_cons, Bool.and_eq_true] at h
    obtain ⟨vals, hrest⟩ := ih h.2
    cases a with
    | str v => exact ⟨v :: vals, by simp [hrest]⟩
    | null => exact absurd h.1 (by simp [isStr])
    | bool bv => exact absurd h.1 (by simp [isStr])
    | num nv => exact absurd h.1 (by simp [isStr])
    | arr l => exact absurd h.1 (by simp [isStr])
    | obj fl => exact absurd h.1 (by simp [isStr])

theorem loadArgv_some (j : Json) (s : St) (buf : StrBuf) (s2 : St)
    (h : loadArgv j s = (some buf, s2)) :
    ∃ (vals : List String) (os : List OwnedStr),
      j = Json.arr (vals.map Json.str)
      ∧ os.map OwnedStr.val = vals
      ∧ buf = ⟨s.next, os.map some ++ [none]⟩
      ∧ s2 = { s with next := s.next + 1 + vals.length,
                      live := (os.map OwnedStr.id : Multiset Nat)
                                + (s.next ::ₘ s.live) } := by
  have hs : ((loadArgv j s).1).isSome = true := by rw [h]; rfl
  rw [loadArgv_isSome] at hs
  cases j with
  | arr elts =>
    obtain ⟨vals, rfl⟩ := all_isStr_exists elts (by simpa [isStrArr] using hs)
    obtain ⟨os, heq, hval⟩ := loadArgv_ok vals s
    rw [h] at heq
    simp only [Prod.mk.injEq, Option.some.injEq] at heq
    exact ⟨vals, os, rfl, hval, heq.1, heq.2⟩
  | null => simp [isStrArr] at hs
  | bool bv => simp [isStrArr] at hs
  | num nv => simp [isStrArr] at hs
  | str v => simp [isStrArr] at hs
  | obj fl => simp [isStrArr] at hs

/-! ### Environment builder lemmas -/

theorem loadEnvpLoop_ok (pairs : List (String × String)) :
    ∀ (os : List OwnedStr) (b : Nat) (s : St),
    ∃ os2 : List OwnedStr,
      loadEnvpLoop (pairs.map (fun kv => (kv.1, Json.str kv.2))) os.length
          ⟨b, os.map some ++ List.replicate (pairs.length + 1) none⟩ s
        = (some ⟨b, (os ++ os2).map some ++ [none]⟩,
           { s with next := s.next + pairs.length,
                    live := (os2.map OwnedStr.id : Multiset Nat) + s.live })
      ∧ os2.map OwnedStr.val = pairs.map (fun kv => kv.1 ++ "=" ++ kv.2) := by
  induction pairs with
  | nil =>
    intro os b s
    refine ⟨[], ?_, rfl⟩
    simp [loadEnvpLoop]
  | cons kv ps ih =>
    obtain ⟨k, v⟩ := kv
    intro os b s
    obtain ⟨os2, heq, hval⟩ := ih (os ++ [(⟨s.next, k ++ "=" ++ v⟩ : OwnedStr)]) b
      { s with next := s.next + 1, live := s.next ::ₘ s.live }
    refine ⟨(⟨s.next, k ++ "=" ++ v⟩ : OwnedStr) :: os2, ?_, by simpa using hval⟩
    have hlen : os.length + 1
        = (os ++ [(⟨s.next, k ++ "=" ++ v⟩ : OwnedStr)]).length := by simp
    rw [← hlen] at heq
    have hcells : (os.map some ++ List.replicate (ps.length + 1 + 1) none).set
        os.length (some (⟨s.next, k ++ "=" ++ v⟩ : OwnedStr))
        = (os ++ [(⟨s.next, k ++ "=" ++ v⟩ : OwnedStr)]).map some
            ++ List.replicate (ps.length + 1) none := by
      rw [List.replicate_succ,
        show os.length = (os.map some).length from (List.length_map _ _).symm,
        set_at_append]
      simp
    calc loadEnvpLoop (((k, v) :: ps).map (fun kv => (kv.1, Json.str kv.2))) os.length
          ⟨b, os.map some ++ List.replicate (ps.length + 1 + 1) none⟩ s
        = loadEnvpLoop (ps.map (fun kv => (kv.1, Json.str kv.2))) (os.length + 1)
            ⟨b, (os ++ [(⟨s.next, k ++ "=" ++ v⟩ : OwnedStr)]).map some
                  ++ List.replicate (ps.length + 1) none⟩
            { s with next := s.next + 1, live := s.next ::ₘ s.live } := by
          simp [loadEnvpLoop, strdup, St.alloc, hcells]
      _ = _ := by
          rw [heq]
          refine Prod.ext ?_ ?_
          · simp [List.append_assoc]
          · refine St.ext ?_ ?_ ?_ ?_ ?_ ?_ ?_
            · simp only [List.length_cons]
              omega
            · simp only [List.map_cons, ← Multiset.cons_coe, Multiset.cons_add,
                Multiset.add_cons]
            · rfl
            · rfl
            · rfl
            · rfl
            · rfl

theorem loadEnvp_ok (pairs : List (String × String)) (s : St) :
    ∃ os : List OwnedStr,
      loadEnvp (Json.obj (pairs.map (fun kv => (kv.1, Json.str kv.2)))) s
        = (some ⟨s.next, os.map some ++ [none]⟩,
           { s with next := s.next + 1 + pairs.length,
                    live := (os.map OwnedStr.id : Multiset Nat) + (s.next ::ₘ s.live) })
      ∧ os.map OwnedStr.val = pairs.map (fun kv => kv.1 ++ "=" ++ kv.2) := by
  obtain ⟨os2, heq, hval⟩ := loadEnvpLoop_ok pairs []
    s.next { s with next := s.next + 1, live := s.next ::ₘ s.live }
  refine ⟨os2, ?_, hval⟩
  have h0 : loadEnvp (Json.obj (pairs.map (fun kv => (kv.1, Json.str kv.2)))) s
      = loadEnvpLoop (pairs.map (fun kv => (kv.1, Json.str kv.2))) 0
        ⟨s.next, List.replicate ((pairs.map (fun kv => (kv.1, Json.str kv.2))).length + 1) none⟩
        { s with next := s.next + 1, live := s.next ::ₘ s.live } := by
    simp [loadEnvp, allocBuf, St.alloc]
  rw [h0]
  simpa using heq

theorem loadEnvpLoop_fail_head (k : String) (v : Json) (rest : List (String × Json))
    (hv : isStr v = false) (os : List OwnedStr) (b : Nat) (s : St) :
    loadEnvpLoop ((k, v) :: rest) os.length
        ⟨b, os.map some ++ List.replicate (rest.length + 1 + 1) none⟩ s
      = (none, { s with
          live := s.live - (b ::ₘ (os.map OwnedStr.id : Multiset Nat)),
          log := s.log ++ ["envp value not object"] }) := by
  have hc : (os.map some ++ List.replicate (rest.length + 1 + 1) (none : Option OwnedStr))
      = os.map some ++ none :: List.replicate (rest.length + 1) none := by
    rw [List.replicate_succ]
  cases v with
  | str vs => simp [isStr] at hv
  | null =>
    simp only [loadEnvpLoop]
    rw [hc, freeStrings_eq]
    rfl
  | bool bv =>
    simp only [loadEnvpLoop]
    rw [hc, freeStrings_eq]
    rfl
  | num nv =>
    simp only [loadEnvpLoop]
    rw [hc, freeStrings_eq]
    rfl
  | arr l =>
    simp only [loadEnvpLoop]
    rw [hc, freeStrings_eq]
    rfl
  | obj fl =>
    simp only [loadEnvpLoop]
    rw [hc, freeStrings_eq]
    rfl

theorem loadEnvpLoop_fail (fields : List (String × Json))
    (h : fields.all (fun kv => isStr kv.2) = false) :
    ∀ (os : List OwnedStr) (b : Nat) (s : St),
    ∃ s2 : St,
      loadEnvpLoop fields os.length
          ⟨b, os.map some ++ List.replicate (fields.length + 1) none⟩ s
        = (none, s2)
      ∧ s2.live = s.live - (b ::ₘ (os.map OwnedStr.id : Multiset Nat))
      ∧ s2.fds = s.fds ∧ s2.fdTube = s.fdTube ∧ s2.tubeEof = s.tubeEof
      ∧ s2.tubeDocs = s.tubeDocs
      ∧ s2.log = s.log ++ ["envp value not object"] := by
  induction fields with
  | nil => simp at h
  | cons kv rest ih =>
    obtain ⟨k, v⟩ := kv
    intro os b s
    cases hv : isStr v with
    | false =>
      refine ⟨_, loadEnvpLoop_fail_head k v rest hv os b s, ?_⟩
      exact ⟨rfl, rfl, rfl, rfl, rfl, rfl⟩
    | true =>
      obtain ⟨vs, rfl⟩ : ∃ vs, v = Json.str vs := by
        cases v <;> simp [isStr] at hv ⊢
      have hrest : rest.all (fun kv => isStr kv.2) = false := by
        simp only [List.all_cons, isStr, Bool.true_and] at h
        exact h
      obtain ⟨s2, heq, hlive, hfds, htube, heof, hdocs, hlog⟩ :=
        ih hrest (os ++ [(⟨s.next, k ++ "=" ++ vs⟩ : OwnedStr)]) b
          { s with next := s.next + 1, live := s.next ::ₘ s.live }
      have hlen : os.length + 1
          = (os ++ [(⟨s.next, k ++ "=" ++ vs⟩ : OwnedStr)]).length := by simp
      rw [← hlen] at heq
      have hcells : (os.map some ++ List.replicate (rest.length + 1 + 1) none).set
          os.length (some (⟨s.next, k ++ "=" ++ vs⟩ : OwnedStr))
          = (os ++ [(⟨s.next, k ++ "=" ++ vs⟩ : OwnedStr)]).map some
              ++ List.replicate (rest.length + 1) none := by
        rw [List.replicate_succ,
          show os.length = (os.map some).length from (List.length_map _ _).symm,
          set_at_append]
        simp
      have hstep : loadEnvpLoop ((k, Json.str vs) :: rest) os.length
          ⟨b, os.map some ++ List.replicate (rest.length + 1 + 1) none⟩ s
          = loadEnvpLoop rest (os.length + 1)
            ⟨b, (os ++ [(⟨s.next, k ++ "=" ++ vs⟩ : OwnedStr)]).map some
                  ++ List.replicate (rest.length + 1) none⟩
            { s with next := s.next + 1, live := s.next ::ₘ s.live } := by
        simp [loadEnvpLoop, strdup, St.alloc, hcells]
      refine ⟨s2, ?_, ?_, hfds, htube, heof, hdocs, hlog⟩
      · rw [List.length_cons, hstep]
        exact heq
      · rw [hlive]
        simp only [List.map_append, List.map_cons, List.map_nil]
        rw [show ((os.map OwnedStr.id ++ [s.next] : List Nat) : Multiset Nat)
            = (os.map OwnedStr.id : Multiset Nat) + {s.next} by
          rw [← Multiset.coe_singleton, ← Multiset.coe_add]]
        exact sub_cons_exchange s.live _ s.next b

theorem loadEnvp_obj_fail (fields : List (String × Json)) (s : St)
    (h : fields.all (fun kv => isStr kv.2) = false) :
    ∃ s2 : St, loadEnvp (Json.obj fields) s = (none, s2)
      ∧ s2.live = s.live ∧ s2.fds = s.fds ∧ s2.fdTube = s.fdTube
      ∧ s2.tubeEof = s.tubeEof ∧ s2.tubeDocs = s.tubeDocs
      ∧ s2.log = s.log ++ ["envp value not object"] := by
  obtain ⟨s2, heq, hlive, hfds, htube, heof, hdocs, hlog⟩ :=
    loadEnvpLoop_fail fields h [] s.next
      { s with next := s.next + 1, live := s.next ::ₘ s.live }
  refine ⟨s2, ?_, ?_, hfds, htube, heof, hdocs, hlog⟩
  · have h0 : loadEnvp (Json.obj fields) s
        = loadEnvpLoop fields 0 ⟨s.next, List.replicate (fields.length + 1) none⟩
          { s with next := s.next + 1, live := s.next ::ₘ s.live } := by
      simp [loadEnvp, allocBuf, St.alloc]
    rw [h0]
    simpa using heq
  · rw [hlive]
    simp

theorem loadEnvpLoop_isSome (fields : List (String × Json)) :
    ∀ (i : Nat) (buf : StrBuf) (s : St),
    ((loadEnvpLoop fields i buf s).1).isSome = fields.all (fun kv => isStr kv.2) := by
  induction fields with
  | nil =>
    intro i buf s
    simp [loadEnvpLoop]
  | cons kv rest ih =>
    obtain ⟨k, v⟩ := kv
    intro i buf s
    cases v <;> simp [loadEnvpLoop, isStr, strdup, St.alloc, ih]

theorem loadEnvp_isSome (j : Json) (s : St) :
    ((loadEnvp j s).1).isSome = isStrObj j := by
  cases j <;> simp [loadEnvp, isStrObj, allocBuf, St.alloc, loadEnvpLoop_isSome]

theorem all_val_isStr_exists (fields : List (String × Json))
    (h : fields.all (fun kv => isStr kv.2) = true) :
    ∃ pairs : List (String × String),
      fields = pairs.map (fun kv => (kv.1, Json.str kv.2)) := by
  induction fields with
  | nil => exact ⟨[], rfl⟩
  | cons kv rest ih =>
    obtain ⟨k, v⟩ := kv
    simp only [List.all_cons, Bool.and_eq_true] at h
    obtain ⟨pairs, hrest⟩ := ih h.2
    cases v with
    | str vs => exact ⟨(k, vs) :: pairs, by simp [hrest]⟩
    | null => exact absurd h.1 (by simp [isStr])
    | bool bv => exact absurd h.1 (by simp [isStr])
    | num nv => exact absurd h.1 (by simp [isStr])
    | arr l => exact absurd h.1 (by simp [isStr])
    | obj fl => exact absurd h.1 (by simp [isStr])

theorem loadEnvp_some (j : Json) (s : St) (buf : StrBuf) (s2 : St)
    (h : loadEnvp j s = (some buf, s2)) :
    ∃ (pairs : List (String × String)) (os : List OwnedStr),
      j = Json.obj (pairs.map (fun kv => (kv.1, Json.str kv.2)))
      ∧ os.map OwnedStr.val = pairs.map (fun kv => kv.1 ++ "=" ++ kv.2)
      ∧ buf = ⟨s.next, os.map some ++ [none]⟩
      ∧ s2 = { s with next := s.next + 1 + pairs.length,
                      live := (os.map OwnedStr.id : Multiset Nat)
                                + (s.next ::ₘ s.live) } := by
  have hs : ((loadEnvp j s).1).isSome = true := by rw [h]; rfl
  rw [loadEnvp_isSome] at hs
  cases j with
  | obj fields =>
    obtain ⟨pairs, rfl⟩ := all_val_isStr_exists fields (by simpa [isStrObj] using hs)
    obtain ⟨os, heq, hval⟩ := loadEnvp_ok pairs s
    rw [h] at heq
    simp only [Prod.mk.injEq, Option.some.injEq] at heq
    exact ⟨pairs, os, rfl, hval, heq.1, heq.2⟩
  | null => simp [isStrObj] at hs
  | bool bv => simp [isStrObj] at hs
  | num nv => simp [isStrObj] at hs
  | str v => simp [isStrObj] at hs
  | arr l => simp [isStrObj] at hs

/-! ### Descriptor receiver lemmas -/

theorem recvFd_empty (s : St) (h : s.fdTube = []) :
    recvFd s = (-1, { s with
                      next := s.next + 1,
                      log := s.log ++ ["Waiting for a fd", "recvmsg"] }) := by
  simp [recvFd, St.alloc, St.logMsg, St.free, h, List.append_assoc]

theorem recvFd_transport_fail (s : St) (rest : List FdMsg)
    (h : s.fdTube = FdMsg.transportError :: rest) :
    recvFd s = (-1, { s with
                      next := s.next + 1,
                      fdTube := rest,
                      log := s.log ++ ["Waiting for a fd", "recvmsg"] }) := by
  simp [recvFd, St.alloc, St.logMsg, St.free, h, List.append_assoc]

theorem recvFd_short (s : St) (len fd : Nat) (rest : List FdMsg)
    (h : s.fdTube = FdMsg.msg len fd :: rest) (hlen : len < CONTROLLEN) :
    recvFd s = (-1, { s with
                      next := s.next + 1,
                      fdTube := rest,
                      log := s.log ++ ["Waiting for a fd", "Got a fd",
                                       "short control message"] }) := by
  simp [recvFd, St.alloc, St.logMsg, St.free, h, hlen, List.append_assoc]

theorem recvFd_got (s : St) (len fd : Nat) (rest : List FdMsg)
    (h : s.fdTube = FdMsg.msg len fd :: rest) (hlen : CONTROLLEN ≤ len) :
    recvFd s = ((fd : Int), { s with
                              next := s.next + 1,
                              fdTube := rest,
                              fds := (fd : Int) ::ₘ s.fds,
                              log := s.log ++ ["Waiting for a fd", "Got a fd"] }) := by
  simp [recvFd, St.alloc, St.logMsg, St.free, h, Nat.not_lt.mpr hlen,
    List.append_assoc]

theorem recvFd_frame (s : St) :
    ((recvFd s).2).live = s.live ∧ ((recvFd s).2).tubeEof = s.tubeEof
      ∧ ((recvFd s).2).tubeDocs = s.tubeDocs := by
  cases h : s.fdTube with
  | nil => rw [recvFd_empty s h]; exact ⟨rfl, rfl, rfl⟩
  | cons m rest =>
    cases m with
    | transportError => rw [recvFd_transport_fail s rest h]; exact ⟨rfl, rfl, rfl⟩
    | msg len fd =>
      rcases Nat.lt_or_ge len CONTROLLEN with hl | hl
      · rw [recvFd_short s len fd rest h hl]; exact ⟨rfl, rfl, rfl⟩
      · rw [recvFd_got s len fd rest h hl]; exact ⟨rfl, rfl, rfl⟩

theorem recvFdsOut_spec (c : ReqCmd) (s : St) :
    ∃ st c2 s2, recvFdsOut c s = (st, c2, s2)
      ∧ c2.id = c.id ∧ c2.path = c.path ∧ c2.argv = c.argv ∧ c2.envp = c.envp
      ∧ c2.redirInput = c.redirInput ∧ c2.redirOutput = c.redirOutput
      ∧ c2.input = c.input
      ∧ s2.live = s.live ∧ s2.tubeEof = s.tubeEof ∧ s2.tubeDocs = s.tubeDocs
      ∧ (st = 0 → (c.redirOutput = true → 0 ≤ c2.output)) := by
  by_cases hro : c.redirOutput
  · rcases hr : recvFd s with ⟨fd, s1⟩
    have hfr := recvFd_frame s
    rw [hr] at hfr
    by_cases hneg : fd < 0
    · refine ⟨-1, { c with output := fd }, s1, ?_, rfl, rfl, rfl, rfl, rfl, by simp [hro],
        rfl, hfr.1, hfr.2.1, hfr.2.2, ?_⟩
      · simp [recvFdsOut, hro, hr, hneg]
      · intro h0
        cases h0
    · refine ⟨0, { c with output := fd }, s1, ?_, rfl, rfl, rfl, rfl, rfl, by simp [hro],
        rfl, hfr.1, hfr.2.1, hfr.2.2, ?_⟩
      · simp [recvFdsOut, hro, hr, hneg]
      · intro _ _
        simpa using Int.not_lt.mp hneg
  · refine ⟨0, c, s, ?_, rfl, rfl, rfl, rfl, rfl, rfl, rfl, rfl, rfl, rfl, ?_⟩
    · simp [recvFdsOut, hro]
    · intro _ hro2
      exact absurd hro2 (by simp [hro])

theorem recvFds_spec (c : ReqCmd) (s : St) :
    ∃ st c2 s2, recvFds c s = (st, c2, s2)
      ∧ c2.id = c.id ∧ c2.path = c.path ∧ c2.argv = c.argv ∧ c2.envp = c.envp
      ∧ c2.redirInput = c.redirInput ∧ c2.redirOutput = c.redirOutput
      ∧ s2.live = s.live ∧ s2.tubeEof = s.tubeEof ∧ s2.tubeDocs = s.tubeDocs
      ∧ (st = 0 → (c.redirInput = true → 0 ≤ c2.input)
                 ∧ (c.redirOutput = true → 0 ≤ c2.output)) := by
  by_cases hri : c.redirInput
  · rcases hr : recvFd s with ⟨fd, s1⟩
    have hfr := recvFd_frame s
    rw [hr] at hfr
    by_cases hneg : fd < 0
    · refine ⟨-1, { c with input := fd }, s1, ?_, rfl, rfl, rfl, rfl, by simp [hri], rfl,
        hfr.1, hfr.2.1, hfr.2.2, ?_⟩
      · simp [recvFds, hri, hr, hneg]
      · intro h0
        cases h0
    · obtain ⟨st, c2, s2, heq, hid, hpath, hargv, henvp, hrin, hrout, hin, hlv, heof,
        hdocs, hzero⟩ := recvFdsOut_spec { c with input := fd } s1
      refine ⟨st, c2, s2, ?_, hid, hpath, hargv, henvp, by simpa [hri] using hrin,
        hrout, by rw [hlv, hfr.1], by rw [heof, hfr.2.1], by rw [hdocs, hfr.2.2], ?_⟩
      · rw [hri] at heq
        simp only [recvFds, hri, if_true, hr]
        simp only [if_neg hneg]
        exact heq
      · intro h0
        refine ⟨fun _ => ?_, hzero h0⟩
        rw [hin]
        simpa using Int.not_lt.mp hneg
  · obtain ⟨st, c2, s2, heq, hid, hpath, hargv, henvp, hrin, hrout, hin, hlv, heof,
      hdocs, hzero⟩ := recvFdsOut_spec c s
    refine ⟨st, c2, s2, ?_, hid, hpath, hargv, henvp, hrin, hrout, hlv, heof, hdocs, ?_⟩
    · simp [recvFds, hri, heq]
    · intro h0
      refine ⟨fun hri2 => absurd hri2 (by simp [hri]), hzero h0⟩

theorem recvFds_no_redirect (c : ReqCmd) (h1 : c.redirInput = false)
    (h2 : c.redirOutput = false) (s : St) : recvFds c s = (0, c, s) := by
  simp [recvFds, recvFdsOut, h1, h2]

/-! ### Release lemmas for decoded commands -/

theorem freeReqCmd_bare (cid : Nat) (ri ro : Bool) (i o : Int) (s : St) :
    freeReqCmd ⟨cid, none, none, none, ri, ro, i, o⟩ s
      = { s with live := s.live.erase cid } := rfl

theorem freeReqCmd_argv (cid bA : Nat) (osA : List OwnedStr) (ri ro : Bool)
    (i o : Int) (s : St) :
    freeReqCmd ⟨cid, none, some ⟨bA, osA.map some ++ [none]⟩, none, ri, ro, i, o⟩ s
      = { s with live :=
            ((s.live - (bA ::ₘ (osA.map OwnedStr.id : Multiset Nat)))).erase cid } := by
  simp only [freeReqCmd]
  rw [show (osA.map some ++ [none] : List (Option OwnedStr))
      = osA.map some ++ none :: [] from rfl]
  rw [freeStrings_eq]
  rfl

theorem freeReqCmd_argv_envp (cid bA bE : Nat) (osA osE : List OwnedStr)
    (ri ro : Bool) (i o : Int) (s : St) :
    freeReqCmd ⟨cid, none, some ⟨bA, osA.map some ++ [none]⟩,
                some ⟨bE, osE.map some ++ [none]⟩, ri, ro, i, o⟩ s
      = { s with live :=
            (((s.live - (bA ::ₘ (osA.map OwnedStr.id : Multiset Nat)))
               - (bE ::ₘ (osE.map OwnedStr.id : Multiset Nat)))).erase cid } := by
  simp only [freeReqCmd]
  rw [show (osA.map some ++ [none] : List (Option OwnedStr))
      = osA.map some ++ none :: [] from rfl]
  rw [show (osE.map some ++ [none] : List (Option OwnedStr))
      = osE.map some ++ none :: [] from rfl]
  rw [freeStrings_eq, freeStrings_eq]
  rfl

theorem freeReqCmd_full (cid pid : Nat) (pv : String) (bA bE : Nat)
    (osA osE : List OwnedStr) (ri ro : Bool) (i o : Int) (s : St) :
    freeReqCmd ⟨cid, some ⟨pid, pv⟩, some ⟨bA, osA.map some ++ [none]⟩,
                some ⟨bE, osE.map some ++ [none]⟩, ri, ro, i, o⟩ s
      = { s with live :=
            ((((s.live.erase pid) - (bA ::ₘ (osA.map OwnedStr.id : Multiset Nat)))
               - (bE ::ₘ (osE.map OwnedStr.id : Multiset Nat)))).erase cid } := by
  simp only [freeReqCmd]
  rw [show (osA.map some ++ [none] : List (Option OwnedStr))
      = osA.map some ++ none :: [] from rfl]
  rw [show (osE.map some ++ [none] : List (Option OwnedStr))
      = osE.map some ++ none :: [] from rfl]
  rw [freeStrings_eq, freeStrings_eq]
  rfl

theorem release_cancel (X ids : Multiset Nat) (b : Nat) :
    (ids + (b ::ₘ X)) - (b ::ₘ ids) = X := by
  rw [Multiset.add_cons, ← Multiset.cons_add, add_tsub_cancel_left]

theorem release_cancel2 (X idsA idsE : Multiset Nat) (bA bE : Nat) :
    ((idsE + (bE ::ₘ (idsA + (bA ::ₘ X)))) - (bA ::ₘ idsA)) - (bE ::ₘ idsE) = X := by
  rw [tsub_tsub]
  have h : idsE + (bE ::ₘ (idsA + (bA ::ₘ X)))
      = ((bA ::ₘ idsA) + (bE ::ₘ idsE)) + X := by
    simp only [← Multiset.singleton_add]
    abel
  rw [h, add_tsub_cancel_left]

/-! ### Strict unpack characterisation -/

theorem jsonLookup_mem (k : String) (fields : List (String × Json)) (v : Json)
    (h : jsonLookup k fields = some v) : k ∈ fields.map Prod.fst := by
  induction fields with
  | nil => simp [jsonLookup] at h
  | cons kv rest ih =>
    simp only [jsonLookup] at h
    split at h
    · next heq => simp [← heq]
    · next hne => simpa using Or.inr (ih h)

theorem unpackCmd_some (fields : List (String × Json)) (p : String) (a e : Json)
    (b1 b2 : Bool) (h : unpackCmd (Json.obj fields) = some (p, a, e, b1, b2)) :
    jsonLookup "Path" fields = some (Json.str p)
    ∧ jsonLookup "Args" fields = some a
    ∧ jsonLookup "Env" fields = some e
    ∧ jsonLookup "RedirInput" fields = some (Json.bool b1)
    ∧ jsonLookup "RedirOutput" fields = some (Json.bool b2)
    ∧ fields.all (fun kv => cmdKeys.contains kv.1) = true := by
  simp only [unpackCmd] at h
  split at h
  · next hP hA hE hRI hRO hAll =>
    simp only [Option.some.injEq, Prod.mk.injEq] at h
    obtain ⟨hp, ha, he, h1, h2⟩ := h
    subst hp
    subst ha
    subst he
    subst h1
    subst h2
    exact ⟨hP, hA, hE, hRI, hRO, hAll⟩
  · exact absurd h (by simp)

theorem unpackCmd_build (fields : List (String × Json)) (p : String) (a e : Json)
    (b1 b2 : Bool)
    (hP : jsonLookup "Path" fields = some (Json.str p))
    (hA : jsonLookup "Args" fields = some a)
    (hE : jsonLookup "Env" fields = some e)
    (h1 : jsonLookup "RedirInput" fields = some (Json.bool b1))
    (h2 : jsonLookup "RedirOutput" fields = some (Json.bool b2))
    (hAll : fields.all (fun kv => cmdKeys.contains kv.1) = true) :
    unpackCmd (Json.obj fields) = some (p, a, e, b1, b2) := by
  simp only [unpackCmd]
  rw [hP, hA, hE, h1, h2, hAll]

theorem unpackCmd_none_specValid (fields : List (String × Json))
    (h : unpackCmd (Json.obj fields) = none) :
    specValidCmdFields fields = false := by
  cases hx : specValidCmdFields fields with
  | false => rfl
  | true =>
    exfalso
    simp only [specValidCmdFields, Bool.and_eq_true] at hx
    obtain ⟨⟨⟨⟨⟨⟨hAll, hKeys⟩, hPath⟩, hArgs⟩, hEnv⟩, hRI⟩, hRO⟩ := hx
    rcases hP : jsonLookup "Path" fields with _ | pv
    · rw [hP] at hPath
      simp at hPath
    rcases hA : jsonLookup "Args" fields with _ | av
    · rw [hA] at hArgs
      simp at hArgs
    rcases hE : jsonLookup "Env" fields with _ | ev
    · rw [hE] at hEnv
      simp at hEnv
    rcases hI : jsonLookup "RedirInput" fields with _ | iv
    · rw [hI] at hRI
      simp at hRI
    rcases hO : jsonLookup "RedirOutput" fields with _ | ov
    · rw [hO] at hRO
      simp at hRO
    rw [hP] at hPath
    rw [hI] at hRI
    rw [hO] at hRO
    cases pv <;> simp at hPath
    cases iv <;> simp at hRI
    cases ov <;> simp at hRO
    next p b1 b2 =>
      rw [unpackCmd_build fields p av ev b1 b2 hP hA hE hI hO hAll] at h
      cases h

theorem specValid_unpack_some (fields : List (String × Json)) (p : String)
    (a e : Json) (b1 b2 : Bool)
    (hu : unpackCmd (Json.obj fields) = some (p, a, e, b1, b2)) :
    specValidCmdFields fields = (isStrArr a && isStrObj e) := by
  obtain ⟨hP, hA, hE, hRI, hRO, hAll⟩ := unpackCmd_some fields p a e b1 b2 hu
  have hKeys : cmdKeys.all (fun k => (fields.map Prod.fst).contains k) = true := by
    simp only [cmdKeys, List.all_cons, List.all_nil, Bool.and_eq_true]
    refine ⟨?_, ?_, ?_, ?_, ?_, trivial⟩
    · simpa using jsonLookup_mem "Path" fields _ hP
    · simpa using jsonLookup_mem "Args" fields _ hA
    · simpa using jsonLookup_mem "Env" fields _ hE
    · simpa using jsonLookup_mem "RedirInput" fields _ hRI
    · simpa using jsonLookup_mem "RedirOutput" fields _ hRO
  have hAll2 : (fields.all fun kv => decide (kv.1 ∈ cmdKeys)) = true := by
    simpa using hAll
  have hKeys2 : (cmdKeys.all fun k => decide (k ∈ List.map Prod.fst fields)) = true := by
    simpa using hKeys
  simp [specValidCmdFields, hP, hA, hE, hRI, hRO, hAll2, hKeys2]

theorem loadReqCmd_isSome_flags_false (j : Json) (s : St) (p : String) (a e : Json)
    (hu : unpackCmd j = some (p, a, e, false, false)) :
    ((loadReqCmd j s).1).isSome = (isStrArr a && isStrObj e) := by
  rcases hA2 : loadArgv a { s with next := s.next + 1, live := s.next ::ₘ s.live }
    with ⟨oa, s2⟩
  have hAs : oa.isSome = isStrArr a := by
    have h0 := loadArgv_isSome a { s with next := s.next + 1, live := s.next ::ₘ s.live }
    rw [hA2] at h0
    exact h0
  cases oa with
  | none =>
    have hL : (loadReqCmd j s).1 = none := by
      simp [loadReqCmd, newReqCmd, St.alloc, hu, hA2]
    rw [hL, ← hAs]
    rfl
  | some bufA =>
    rcases hE2 : loadEnvp e s2 with ⟨oe, s3⟩
    have hEs : oe.isSome = isStrObj e := by
      have h0 := loadEnvp_isSome e s2
      rw [hE2] at h0
      exact h0
    cases oe with
    | none =>
      have hL : (loadReqCmd j s).1 = none := by
        simp [loadReqCmd, newReqCmd, St.alloc, hu, hA2, hE2]
      rw [hL, ← hAs, ← hEs]
      rfl
    | some bufE =>
      have hL : ((loadReqCmd j s).1).isSome = true := by
        simp [loadReqCmd, newReqCmd, St.alloc, hu, hA2, hE2,
          recvFds_no_redirect, strdup]
      rw [hL, ← hAs, ← hEs]
      rfl

/-! ### Claim theorems -/

/-- C1: for every input document whose two redirection flags are not set,
`loadReqCmd` succeeds if and only if the document is an object carrying
exactly the five schema fields with the correct types — string `Path`,
array-of-strings `Args`, string-valued mapping `Env`, boolean
`RedirInput` and `RedirOutput` — and no extra fields; any missing,
extra, or mistyped field makes it fail with a null result. -/
theorem loadReqCmd_strict_schema (j : Json) (s : St)
    (hnd : ∀ fields, j = Json.obj fields → (fields.map Prod.fst).Nodup)
    (hflags : ∀ fields, j = Json.obj fields →
      jsonLookup "RedirInput" fields ≠ some (Json.bool true)
      ∧ jsonLookup "RedirOutput" fields ≠ some (Json.bool true)) :
    ((loadReqCmd j s).1).isSome = specValidCmdDoc j := by
  cases j with
  | obj fields =>
    obtain ⟨hin, hout⟩ := hflags fields rfl
    cases hu : unpackCmd (Json.obj fields) with
    | none =>
      have hL : (loadReqCmd (Json.obj fields) s).1 = none := by
        simp [loadReqCmd, newReqCmd, St.alloc, hu]
      rw [hL, show specValidCmdDoc (Json.obj fields)
          = specValidCmdFields fields from rfl, unpackCmd_none_specValid fields hu]
      rfl
    | some quint =>
      obtain ⟨p, a, e, b1, b2⟩ := quint
      obtain ⟨hP, hA, hE, hRI, hRO, hAll⟩ := unpackCmd_some fields p a e b1 b2 hu
      have hb1 : b1 = false := by
        cases b1
        · rfl
        · exact absurd hRI hin
      have hb2 : b2 = false := by
        cases b2
        · rfl
        · exact absurd hRO hout
      subst hb1
      subst hb2
      rw [loadReqCmd_isSome_flags_false (Json.obj fields) s p a e hu]
      exact (specValid_unpack_some fields p a e false false hu).symm
  | null =>
    have hL : (loadReqCmd Json.null s).1 = none := by
      simp [loadReqCmd, newReqCmd, St.alloc, unpackCmd]
    rw [hL]
    rfl
  | bool bv =>
    have hL : (loadReqCmd (Json.bool bv) s).1 = none := by
      simp [loadReqCmd, newReqCmd, St.alloc, unpackCmd]
    rw [hL]
    rfl
  | num nv =>
    have hL : (loadReqCmd (Json.num nv) s).1 = none := by
      simp [loadReqCmd, newReqCmd, St.alloc, unpackCmd]
    rw [hL]
    rfl
  | str sv =>
    have hL : (loadReqCmd (Json.str sv) s).1 = none := by
      simp [loadReqCmd, newReqCmd, St.alloc, unpackCmd]
    rw [hL]
    rfl
  | arr l =>
    have hL : (loadReqCmd (Json.arr l) s).1 = none := by
      simp [loadReqCmd, newReqCmd, St.alloc, unpackCmd]
    rw [hL]
    rfl

/-- Concrete instantiation of the strict-schema equivalence on a valid
document with both flags false. -/
theorem loadReqCmd_strict_schema_witness :
    ((loadReqCmd (Json.obj [("Path", Json.str "/bin/ls"),
        ("Args", Json.arr [Json.str "ls"]),
        ("Env", Json.obj [("A", Json.str "1")]),
        ("RedirInput", Json.bool false),
        ("RedirOutput", Json.bool false)]) st0).1).isSome = true := by
  rw [loadReqCmd_strict_schema _ st0 ?h1 ?h2]
  · rfl
  case h1 =>
    intro fields hf
    cases hf
    decide
  case h2 =>
    intro fields hf
    cases hf
    refine ⟨?_, ?_⟩
    · rw [show jsonLookup "RedirInput"
          [("Path", Json.str "/bin/ls"), ("Args", Json.arr [Json.str "ls"]),
           ("Env", Json.obj [("A", Json.str "1")]), ("RedirInput", Json.bool false),
           ("RedirOutput", Json.bool false)] = some (Json.bool false) from rfl]
      intro hcontra
      simp at hcontra
    · rw [show jsonLookup "RedirOutput"
          [("Path", Json.str "/bin/ls"), ("Args", Json.arr [Json.str "ls"]),
           ("Env", Json.obj [("A", Json.str "1")]), ("RedirInput", Json.bool false),
           ("RedirOutput", Json.bool false)] = some (Json.bool false) from rfl]
      intro hcontra
      simp at hcontra

theorem loadArgv_none_live (j : Json) (s s2 : St)
    (h : loadArgv j s = (none, s2)) : s2.live = s.live := by
  cases j with
  | arr elts =>
    cases hall : elts.all isStr with
    | true =>
      obtain ⟨vals, rfl⟩ := all_isStr_exists elts hall
      obtain ⟨os, heq, _⟩ := loadArgv_ok vals s
      rw [h] at heq
      exact absurd heq (by simp)
    | false =>
      obtain ⟨s3, heq, hlive, _, _, _, _, _⟩ := loadArgv_arr_fail elts s hall
      rw [h] at heq
      simp only [Prod.mk.injEq] at heq
      rw [heq.2]
      exact hlive
  | null =>
    simp only [loadArgv, Prod.mk.injEq] at h
    rw [← h.2]
    rfl
  | bool bv =>
    simp only [loadArgv, Prod.mk.injEq] at h
    rw [← h.2]
    rfl
  | num nv =>
    simp only [loadArgv, Prod.mk.injEq] at h
    rw [← h.2]
    rfl
  | str sv =>
    simp only [loadArgv, Prod.mk.injEq] at h
    rw [← h.2]
    rfl
  | obj fl =>
    simp only [loadArgv, Prod.mk.injEq] at h
    rw [← h.2]
    rfl

theorem loadEnvp_none_live (j : Json) (s s2 : St)
    (h : loadEnvp j s = (none, s2)) : s2.live = s.live := by
  cases j with
  | obj fields =>
    cases hall : fields.all (fun kv => isStr kv.2) with
    | true =>
      obtain ⟨pairs, rfl⟩ := all_val_isStr_exists fields hall
      obtain ⟨os, heq, _⟩ := loadEnvp_ok pairs s
      rw [h] at heq
      exact absurd heq (by simp)
    | false =>
      obtain ⟨s3, heq, hlive, _, _, _, _, _⟩ := loadEnvp_obj_fail fields s hall
      rw [h] at heq
      simp only [Prod.mk.injEq] at heq
      rw [heq.2]
      exact hlive
  | null =>
    simp only [loadEnvp, Prod.mk.injEq] at h
    rw [← h.2]
    rfl
  | bool bv =>
    simp only [loadEnvp, Prod.mk.injEq] at h
    rw [← h.2]
    rfl
  | num nv =>
    simp only [loadEnvp, Prod.mk.injEq] at h
    rw [← h.2]
    rfl
  | str sv =>
    simp only [loadEnvp, Prod.mk.injEq] at h
    rw [← h.2]
    rfl
  | arr l =>
    simp only [loadEnvp, Prod.mk.injEq] at h
    rw [← h.2]
    rfl

theorem freeReqCmd_shape_argv (c : ReqCmd) (s : St) (bA : Nat) (osA : List OwnedStr)
    (hpath : c.path = none)
    (hargv : c.argv = some ⟨bA, osA.map some ++ [none]⟩)
    (henvp : c.envp = none) :
    freeReqCmd c s = { s with live :=
        ((s.live - (bA ::ₘ (osA.map OwnedStr.id : Multiset Nat)))).erase c.id } := by
  obtain ⟨cid, cp, ca, ce, ri, ro, i, o⟩ := c
  simp only at hpath hargv henvp
  subst hpath
  subst hargv
  subst henvp
  exact freeReqCmd_argv cid bA osA ri ro i o s

theorem freeReqCmd_shape_argv_envp (c : ReqCmd) (s : St) (bA bE : Nat)
    (osA osE : List OwnedStr)
    (hpath : c.path = none)
    (hargv : c.argv = some ⟨bA, osA.map some ++ [none]⟩)
    (henvp : c.envp = some ⟨bE, osE.map some ++ [none]⟩) :
    freeReqCmd c s = { s with live :=
        (((s.live - (bA ::ₘ (osA.map OwnedStr.id : Multiset Nat)))
           - (bE ::ₘ (osE.map OwnedStr.id : Multiset Nat)))).erase c.id } := by
  obtain ⟨cid, cp, ca, ce, ri, ro, i, o⟩ := c
  simp only at hpath hargv henvp
  subst hpath
  subst hargv
  subst henvp
  exact freeReqCmd_argv_envp cid bA bE osA osE ri ro i o s

/-- C2: `loadReqCmd` either returns a fully populated command — path,
argv and envp all non-null and every requested descriptor received with
a valid non-negative value — or returns null having released every heap
allocation made for this command (the live-allocation multiset is
exactly restored). -/
theorem loadReqCmd_all_or_nothing (root : Json) (s : St) :
    (∀ c s2, loadReqCmd root s = (some c, s2) →
       c.path.isSome = true ∧ c.argv.isSome = true ∧ c.envp.isSome = true
       ∧ (c.redirInput = true → 0 ≤ c.input)
       ∧ (c.redirOutput = true → 0 ≤ c.output))
    ∧ (∀ s2, loadReqCmd root s = (none, s2) → s2.live = s.live) := by
  cases hu : unpackCmd root with
  | none =>
    have hL : loadReqCmd root s = (none, { s with next := s.next + 1 }) := by
      simp [loadReqCmd, newReqCmd, St.alloc, hu, freeReqCmd_bare]
    constructor
    · intro c s2 hc
      rw [hL] at hc
      exact absurd hc (by simp)
    · intro s2 hn
      rw [hL] at hn
      have h2 : ({ s with next := s.next + 1 } : St) = s2 := by
        simpa using hn
      rw [← h2]
  | some quint =>
    obtain ⟨p, a, e, b1, b2⟩ := quint
    rcases hA2 : loadArgv a { s with next := s.next + 1, live := s.next ::ₘ s.live }
      with ⟨oa, s2a⟩
    cases oa with
    | none =>
      have hlive2 : s2a.live = s.next ::ₘ s.live :=
        loadArgv_none_live a _ s2a hA2
      have hL : loadReqCmd root s
          = (none, { s2a with live := s2a.live.erase s.next }) := by
        simp [loadReqCmd, newReqCmd, St.alloc, hu, hA2, freeReqCmd_bare]
      have hfin : s2a.live.erase s.next = s.live := by
        rw [hlive2]
        exact Multiset.erase_cons_head s.next s.live
      constructor
      · intro c s2 hc
        rw [hL] at hc
        exact absurd hc (by simp)
      · intro s2 hn
        rw [hL] at hn
        have h2 : ({ s2a with live := s2a.live.erase s.next } : St) = s2 := by
          simpa using hn
        rw [← h2]
        exact hfin
    | some bufA =>
      obtain ⟨valsA, osA, hja, hvalA, hbufA, hs2a⟩ :=
        loadArgv_some a _ bufA s2a hA2
      have hbufA2 : bufA = ⟨s.next + 1, osA.map some ++ [none]⟩ := hbufA
      have hs2aLive : s2a.live
          = (osA.map OwnedStr.id : Multiset Nat)
              + ((s.next + 1) ::ₘ s.next ::ₘ s.live) := by
        rw [hs2a]
      rcases hE2 : loadEnvp e s2a with ⟨oe, s3a⟩
      cases oe with
      | none =>
        have hlive3 : s3a.live = s2a.live := loadEnvp_none_live e s2a s3a hE2
        have hL : loadReqCmd root s
            = (none, freeReqCmd ⟨s.next, none, some bufA, none, b1, b2, 0, 0⟩ s3a) := by
          simp [loadReqCmd, newReqCmd, St.alloc, hu, hA2, hE2]
        have hfree : freeReqCmd ⟨s.next, none, some bufA, none, b1, b2, 0, 0⟩ s3a
            = { s3a with
                live := Multiset.erase
                          (s3a.live - ((s.next + 1)
                            ::ₘ (osA.map OwnedStr.id : Multiset Nat))) s.next } :=
          freeReqCmd_shape_argv _ s3a (s.next + 1) osA rfl (by rw [show
            (⟨s.next, none, some bufA, none, b1, b2, 0, 0⟩ : ReqCmd).argv
              = some bufA from rfl, hbufA2]) rfl
        have hfin : Multiset.erase
            (s3a.live - ((s.next + 1) ::ₘ (osA.map OwnedStr.id : Multiset Nat)))
            s.next = s.live := by
          rw [hlive3, hs2aLive, release_cancel]
          exact Multiset.erase_cons_head s.next s.live
        constructor
        · intro c s2 hc
          rw [hL] at hc
          exact absurd hc (by simp)
        · intro s2 hn
          rw [hL, hfree] at hn
          have h2 : ({ s3a with
              live := Multiset.erase
                        (s3a.live - ((s.next + 1)
                          ::ₘ (osA.map OwnedStr.id : Multiset Nat))) s.next } : St)
              = s2 := by
            simpa using hn
          rw [← h2]
          exact hfin
      | some bufE =>
        obtain ⟨pairsE, osE, hje, hvalE, hbufE, hs3a⟩ :=
          loadEnvp_some e s2a bufE s3a hE2
        have hbufE2 : bufE = ⟨s2a.next, osE.map some ++ [none]⟩ := hbufE
        have hs3aLive : s3a.live
            = (osE.map OwnedStr.id : Multiset Nat) + (s2a.next ::ₘ s2a.live) := by
          rw [hs3a]
        obtain ⟨st, c4, s4, heq, hid, hpath, hargv, henvp, hrin, hrout, hlv, heof,
          hdocs, hzero⟩ :=
          recvFds_spec ⟨s.next, none, some bufA, some bufE, b1, b2, 0, 0⟩ s3a
        by_cases hst : st = 0
        · subst hst
          have hL : loadReqCmd root s
              = (some { c4 with path := some ⟨s4.next, p⟩ },
                 { s4 with next := s4.next + 1, live := s4.next ::ₘ s4.live }) := by
            simp [loadReqCmd, newReqCmd, St.alloc, hu, hA2, hE2, heq, strdup]
          constructor
          · intro c s2 hc
            rw [hL] at hc
            simp only [Prod.mk.injEq, Option.some.injEq] at hc
            rw [← hc.1]
            obtain ⟨hzi, hzo⟩ := hzero rfl
            refine ⟨rfl, ?_, ?_, ?_, ?_⟩
            · show (c4.argv).isSome = true
              rw [hargv]
              rfl
            · show (c4.envp).isSome = true
              rw [henvp]
              rfl
            · show c4.redirInput = true → 0 ≤ c4.input
              intro hri
              refine hzi ?_
              rw [hri] at hrin
              exact hrin.symm
            · show c4.redirOutput = true → 0 ≤ c4.output
              intro hro
              refine hzo ?_
              rw [hro] at hrout
              exact hrout.symm
          · intro s2 hn
            rw [hL] at hn
            exact absurd hn (by simp)
        · have hL : loadReqCmd root s = (none, freeReqCmd c4 s4) := by
            simp [loadReqCmd, newReqCmd, St.alloc, hu, hA2, hE2, heq, hst]
          have hfree : freeReqCmd c4 s4
              = { s4 with
                  live := Multiset.erase
                            ((s4.live - ((s.next + 1)
                              ::ₘ (osA.map OwnedStr.id : Multiset Nat)))
                              - (s2a.next
                                ::ₘ (osE.map OwnedStr.id : Multiset Nat)))
                            c4.id } :=
            freeReqCmd_shape_argv_envp c4 s4 (s.next + 1) s2a.next osA osE
              (by rw [hpath])
              (by rw [hargv]
                  rw [show (⟨s.next, none, some bufA, some bufE, b1, b2, 0, 0⟩
                    : ReqCmd).argv = some bufA from rfl, hbufA2])
              (by rw [henvp]
                  rw [show (⟨s.next, none, some bufA, some bufE, b1, b2, 0, 0⟩
                    : ReqCmd).envp = some bufE from rfl, hbufE2])
          have hfin : Multiset.erase
              ((s4.live - ((s.next + 1) ::ₘ (osA.map OwnedStr.id : Multiset Nat)))
                - (s2a.next ::ₘ (osE.map OwnedStr.id : Multiset Nat)))
              c4.id = s.live := by
            rw [hid]
            rw [show (⟨s.next, none, some bufA, some bufE, b1, b2, 0, 0⟩
              : ReqCmd).id = s.next from rfl]
            rw [hlv, hs3aLive, hs2aLive, release_cancel2]
            exact Multiset.erase_cons_head s.next s.live
          constructor
          · intro c s2 hc
            rw [hL] at hc
            exact absurd hc (by simp)
          · intro s2 hn
            rw [hL, hfree] at hn
            have h2 : ({ s4 with
                live := Multiset.erase
                          ((s4.live - ((s.next + 1)
                            ::ₘ (osA.map OwnedStr.id : Multiset Nat)))
                            - (s2a.next
                              ::ₘ (osE.map OwnedStr.id : Multiset Nat)))
                          c4.id } : St) = s2 := by
              simpa using hn
            rw [← h2]
            exact hfin

/-- C2 at a concrete rejected document: decoding a one-field object
fails and restores the live-allocation multiset. -/
theorem loadReqCmd_all_or_nothing_witness :
    ((loadReqCmd (Json.obj [("Path", Json.str "x")]) st0).2).live = st0.live :=
  (loadReqCmd_all_or_nothing (Json.obj [("Path", Json.str "x")]) st0).2
    ((loadReqCmd (Json.obj [("Path", Json.str "x")]) st0).2) rfl

theorem recvReq_eof (s : St) (h : s.tubeEof = true) :
    RecvReq s = (some (Req.exit ⟨s.next⟩), none,
      { s with next := s.next + 1, live := s.next ::ₘ s.live }) := by
  simp [RecvReq, h, newReqExit, St.alloc]

/-- C3: when the control stream is already at end of data, `RecvReq`
produces an `Exit` request before any parse attempt (the pending parse
outcomes are untouched), and every subsequent call on the exhausted
stream again produces `Exit`. -/
theorem recvReq_eof_exit (s : St) (h : s.tubeEof = true) :
    ∀ n : Nat,
      (RecvReq (recvLoop n s)).1 = some (Req.exit ⟨(recvLoop n s).next⟩)
      ∧ (recvLoop n s).tubeEof = true
      ∧ (recvLoop n s).tubeDocs = s.tubeDocs := by
  have key : ∀ n, (recvLoop n s).tubeEof = true
      ∧ (recvLoop n s).tubeDocs = s.tubeDocs := by
    intro n
    induction n with
    | zero => exact ⟨h, rfl⟩
    | succ n ih =>
      constructor
      · show (RecvReqSt (recvLoop n s)).tubeEof = true
        rw [RecvReqSt, recvReq_eof _ ih.1]
        exact ih.1
      · show (RecvReqSt (recvLoop n s)).tubeDocs = s.tubeDocs
        rw [RecvReqSt, recvReq_eof _ ih.1]
        exact ih.2
  intro n
  refine ⟨?_, (key n).1, (key n).2⟩
  rw [recvReq_eof _ (key n).1]

/-- C3 at a concrete exhausted stream: the second call still yields
`Exit`. -/
theorem recvReq_eof_exit_witness :
    (RecvReq (recvLoop 1 { st0 with tubeEof := true })).1
      = some (Req.exit ⟨(recvLoop 1 { st0 with tubeEof := true }).next⟩) :=
  ((recvReq_eof_exit { st0 with tubeEof := true } rfl) 1).1

/-- C4: with both redirections requested, a failed input transfer makes
`recvFds` fail immediately, consuming exactly the one failed message —
the output transfer is never attempted and no descriptor is obtained;
when both transfers happen they take channel messages in fixed order,
input from the first message, output from the second. -/
theorem recvFds_order (c : ReqCmd) (s : St)
    (hin : c.redirInput = true) (hout : c.redirOutput = true) :
    (∀ m1 rest, s.fdTube = m1 :: rest → fdMsgFails m1 = true →
       ∃ c2 s2, recvFds c s = (-1, c2, s2) ∧ s2.fdTube = rest ∧ s2.fds = s.fds)
    ∧ (∀ l1 f1 l2 f2 rest,
        s.fdTube = FdMsg.msg l1 f1 :: FdMsg.msg l2 f2 :: rest →
        CONTROLLEN ≤ l1 → CONTROLLEN ≤ l2 →
       ∃ c2 s2, recvFds c s = (0, c2, s2) ∧ c2.input = (f1 : Int)
         ∧ c2.output = (f2 : Int) ∧ s2.fdTube = rest) := by
  constructor
  · intro m1 rest htube hfail
    cases m1 with
    | transportError =>
      have hr := recvFd_transport_fail s rest htube
      refine ⟨{ c with input := -1 },
        { s with
          next := s.next + 1,
          fdTube := rest,
          log := s.log ++ ["Waiting for a fd", "recvmsg"] }, ?_, rfl, rfl⟩
      simp [recvFds, hin, hr]
    | msg len fd =>
      have hlen : len < CONTROLLEN := by
        simpa [fdMsgFails] using hfail
      have hr := recvFd_short s len fd rest htube hlen
      refine ⟨{ c with input := -1 },
        { s with
          next := s.next + 1,
          fdTube := rest,
          log := s.log ++ ["Waiting for a fd", "Got a fd",
                           "short control message"] }, ?_, rfl, rfl⟩
      simp [recvFds, hin, hr]
  · intro l1 f1 l2 f2 rest htube h1 h2
    have hr1 := recvFd_got s l1 f1 (FdMsg.msg l2 f2 :: rest) htube h1
    have hr2 := recvFd_got
      ({ s with
         next := s.next + 1,
         fdTube := FdMsg.msg l2 f2 :: rest,
         fds := (f1 : Int) ::ₘ s.fds,
         log := s.log ++ ["Waiting for a fd", "Got a fd"] } : St)
      l2 f2 rest rfl h2
    refine ⟨{ c with input := (f1 : Int), output := (f2 : Int) },
      { s with
        next := s.next + 1 + 1,
        fdTube := rest,
        fds := (f2 : Int) ::ₘ (f1 : Int) ::ₘ s.fds,
        log := (s.log ++ ["Waiting for a fd", "Got a fd"])
                 ++ ["Waiting for a fd", "Got a fd"] }, ?_, rfl, rfl, rfl⟩
    simp only [recvFds, hin, if_true, hr1]
    rw [if_neg (not_lt.mpr (Int.natCast_nonneg f1))]
    simp only [recvFdsOut]
    rw [if_pos (show ({ c with input := (f1 : Int) } : ReqCmd).redirOutput
      = true from hout), hr2]
    rw [if_neg (not_lt.mpr (Int.natCast_nonneg f2))]

/-- C4 at a concrete channel whose first transfer fails. -/
theorem recvFds_order_witness :
    ∃ c2 s2, recvFds ⟨0, none, none, none, true, true, 0, 0⟩
        { st0 with fdTube := [FdMsg.transportError] } = (-1, c2, s2)
      ∧ s2.fdTube = []
      ∧ s2.fds = ({ st0 with fdTube := [FdMsg.transportError] } : St).fds :=
  ((recvFds_order ⟨0, none, none, none, true, true, 0, 0⟩
      { st0 with fdTube := [FdMsg.transportError] } rfl rfl).1)
    FdMsg.transportError [] rfl rfl

/-- C5: a single descriptor receive fails, returning `-1` and leaving
the open-descriptor set unchanged, exactly when the transport-level
receive fails or the control message is shorter than one descriptor
needs; otherwise it returns the carried descriptor and installs it. -/
theorem recvFd_transfer_spec (s : St) :
    (∀ rest, s.fdTube = FdMsg.transportError :: rest →
       ∃ s2, recvFd s = (-1, s2) ∧ s2.fds = s.fds ∧ s2.live = s.live
         ∧ s2.fdTube = rest)
    ∧ (∀ len fd rest, s.fdTube = FdMsg.msg len fd :: rest → len < CONTROLLEN →
       ∃ s2, recvFd s = (-1, s2) ∧ s2.fds = s.fds ∧ s2.live = s.live
         ∧ s2.fdTube = rest)
    ∧ (∀ len fd rest, s.fdTube = FdMsg.msg len fd :: rest → CONTROLLEN ≤ len →
       ∃ s2, recvFd s = ((fd : Int), s2) ∧ s2.fds = (fd : Int) ::ₘ s.fds
         ∧ s2.fdTube = rest) := by
  refine ⟨?_, ?_, ?_⟩
  · intro rest h
    exact ⟨_, recvFd_transport_fail s rest h, rfl, rfl, rfl⟩
  · intro len fd rest h hl
    exact ⟨_, recvFd_short s len fd rest h hl, rfl, rfl, rfl⟩
  · intro len fd rest h hl
    exact ⟨_, recvFd_got s len fd rest h hl, rfl, rfl⟩

/-- C5 at a concrete truncated control message. -/
theorem recvFd_transfer_spec_witness :
    ∃ s2, recvFd { st0 with fdTube := [FdMsg.msg 3 7] } = (-1, s2)
      ∧ s2.fds = ({ st0 with fdTube := [FdMsg.msg 3 7] } : St).fds
      ∧ s2.live = ({ st0 with fdTube := [FdMsg.msg 3 7] } : St).live
      ∧ s2.fdTube = [] :=
  ((recvFd_transfer_spec { st0 with fdTube := [FdMsg.msg 3 7] }).2.1)
    3 7 [] rfl (by decide)

/-- C6: for every string-valued mapping, `loadEnvp` succeeds and
returns exactly one element per pair, each being the concatenation
`key ++ "=" ++ value`, in the mapping's enumeration order (which in
particular fixes the elements as a set). -/
theorem loadEnvp_elements (pairs : List (String × String)) (s : St) :
    ∃ buf s2, loadEnvp (Json.obj (pairs.map (fun kv => (kv.1, Json.str kv.2)))) s
        = (some buf, s2)
      ∧ bufStrings buf = pairs.map (fun kv => kv.1 ++ "=" ++ kv.2) := by
  obtain ⟨os, heq, hval⟩ := loadEnvp_ok pairs s
  refine ⟨_, _, heq, ?_⟩
  show bufStrings ⟨s.next, os.map some ++ [none]⟩
    = pairs.map (fun kv => kv.1 ++ "=" ++ kv.2)
  rw [← hval]
  simp [bufStrings, List.filterMap_append, List.filterMap_map, Function.comp]

/-- C7: `loadReq` fails on the empty object printing the empty-request
diagnostic, returns the result of `loadReqCmd` when the first enumerated
key is `Cmd`, and fails printing the unknown-kind diagnostic for any
other first key. -/
theorem loadReq_dispatch (s : St) :
    (loadReq (Json.obj []) s = (none, s.logMsg "empty req"))
    ∧ (∀ v rest, loadReq (Json.obj (("Cmd", v) :: rest)) s
        = ((loadReqCmd v s).1.map Req.cmd, (loadReqCmd v s).2))
    ∧ (∀ k v rest, k ≠ "Cmd" →
        loadReq (Json.obj ((k, v) :: rest)) s
          = (none, s.logMsg ("bad req type " ++ k))) := by
  refine ⟨rfl, ?_, ?_⟩
  · intro v rest
    rcases h : loadReqCmd v s with ⟨oc, s2⟩
    cases oc <;> simp [loadReq, h]
  · intro k v rest hk
    simp [loadReq, hk]

/-- C7 at the concrete unknown-kind document from the spec. -/
theorem loadReq_dispatch_witness :
    loadReq (Json.obj [("Foo", Json.obj [])]) st0
      = (none, st0.logMsg ("bad req type " ++ "Foo")) :=
  (loadReq_dispatch st0).2.2 "Foo" (Json.obj []) [] (by decide)

/-- C8: an array containing a non-string element makes `loadArgv` fail
with the element-type diagnostic, and every element converted before
the failure is released, so the live-allocation multiset is exactly
restored. -/
theorem loadArgv_nonstring_fails (elts : List Json) (s : St)
    (h : ∃ x ∈ elts, isStr x = false) :
    ∃ s2, loadArgv (Json.arr elts) s = (none, s2)
      ∧ s2.live = s.live
      ∧ s2.log = s.log ++ ["argv element not string"] := by
  have hall : elts.all isStr = false := by
    obtain ⟨x, hx, hfx⟩ := h
    cases hA : elts.all isStr with
    | false => rfl
    | true =>
      have := List.all_eq_true.mp hA x hx
      rw [hfx] at this
      cases this
  obtain ⟨s2, heq, hlive, _, _, _, _, hlog⟩ := loadArgv_arr_fail elts s hall
  exact ⟨s2, heq, hlive, hlog⟩

/-- C8 at a concrete array whose second element is a number. -/
theorem loadArgv_nonstring_fails_witness :
    ∃ s2, loadArgv (Json.arr [Json.str "a", Json.num 3]) st0 = (none, s2)
      ∧ s2.live = st0.live
      ∧ s2.log = st0.log ++ ["argv element not string"] :=
  loadArgv_nonstring_fails [Json.str "a", Json.num 3] st0
    ⟨Json.num 3, by simp, rfl⟩

/-- C9: releasing a fully constructed command through `FreeReq` frees
the path string, every argv and envp element, both backing buffers and
the struct itself — and nothing else: in particular the open-descriptor
multiset is untouched, so the two descriptors are not closed. -/
theorem freeReq_releases_not_descriptors (cid pid : Nat) (pv : String)
    (bA bE : Nat) (osA osE : List OwnedStr) (ri ro : Bool) (inp outp : Int)
    (s : St) :
    FreeReq (Req.cmd ⟨cid, some ⟨pid, pv⟩, some ⟨bA, osA.map some ++ [none]⟩,
        some ⟨bE, osE.map some ++ [none]⟩, ri, ro, inp, outp⟩) s
      = { s with
          live := Multiset.erase
                    ((s.live.erase pid
                       - (bA ::ₘ (osA.map OwnedStr.id : Multiset Nat)))
                       - (bE ::ₘ (osE.map OwnedStr.id : Multiset Nat))) cid }
    ∧ (FreeReq (Req.cmd ⟨cid, some ⟨pid, pv⟩, some ⟨bA, osA.map some ++ [none]⟩,
        some ⟨bE, osE.map some ++ [none]⟩, ri, ro, inp, outp⟩) s).fds = s.fds := by
  have h := freeReqCmd_full cid pid pv bA bE osA osE ri ro inp outp s
  constructor
  · exact h
  · rw [show FreeReq (Req.cmd ⟨cid, some ⟨pid, pv⟩,
        some ⟨bA, osA.map some ++ [none]⟩, some ⟨bE, osE.map some ++ [none]⟩,
        ri, ro, inp, outp⟩) s
      = freeReqCmd ⟨cid, some ⟨pid, pv⟩, some ⟨bA, osA.map some ++ [none]⟩,
        some ⟨bE, osE.map some ++ [none]⟩, ri, ro, inp, outp⟩ s from rfl, h]

/-- C10: every sequence successfully returned by `loadArgv` or
`loadEnvp` for an input of `n` elements holds exactly `n` non-null
entries at positions 0 to n-1 followed by the null sentinel at
position n. -/
theorem bufs_null_terminated :
    (∀ j s buf s2, loadArgv j s = (some buf, s2) →
       ∃ elts, ∃ os : List OwnedStr, j = Json.arr elts
         ∧ os.length = elts.length
         ∧ buf.cells = os.map some ++ [none])
    ∧ (∀ j s buf s2, loadEnvp j s = (some buf, s2) →
       ∃ fields, ∃ os : List OwnedStr, j = Json.obj fields
         ∧ os.length = fields.length
         ∧ buf.cells = os.map some ++ [none]) := by
  constructor
  · intro j s buf s2 h
    obtain ⟨vals, os, hja, hval, hbuf, _⟩ := loadArgv_some j s buf s2 h
    refine ⟨vals.map Json.str, os, hja, ?_, by rw [hbuf]⟩
    rw [← hval]
    simp
  · intro j s buf s2 h
    obtain ⟨pairs, os, hje, hval, hbuf, _⟩ := loadEnvp_some j s buf s2 h
    refine ⟨pairs.map (fun kv => (kv.1, Json.str kv.2)), os, hje, ?_, by rw [hbuf]⟩
    have hlen : os.length = pairs.length := by
      rw [show os.length = (os.map OwnedStr.val).length from
        (List.length_map _ _).symm, hval]
      simp
    simpa using hlen

/-- C10 at a concrete one-element array. -/
theorem bufs_null_terminated_witness :
    ∃ elts, ∃ os : List OwnedStr, Json.arr [Json.str "x"] = Json.arr elts
      ∧ os.length = elts.length
      ∧ (⟨0, [some ⟨1, "x"⟩, none]⟩ : StrBuf).cells = os.map some ++ [none] :=
  bufs_null_terminated.1 (Json.arr [Json.str "x"]) st0 ⟨0, [some ⟨1, "x"⟩, none]⟩
    ((loadArgv (Json.arr [Json.str "x"]) st0).2) rfl
